import Mathlib

/-!
Shallow embedding of the column-classification and annual-series-extraction
routine of `src/energy_scenarios.py`.

Column names are modelled as `List Char` (Python `str`).  Numeric cell values
are modelled as `Option Int` (`none` = a missing value / NaN in the source
table).  Code that can raise a Python exception is modelled with `Option`
results (`none` = the script raises).
-/

namespace EnergyScenarios

/-- A column name (a Python string). -/
abbrev Name := List Char

/-- A group member as built by `print_columns_summary`: the pair
`(year, col)` appended to `column_groups[base_name]`; the year is the
four matched digit characters, or the empty string for a non-annual column. -/
abbrev Entry := List Char × Name

/-- The `column_groups` mapping: a `defaultdict(list)` preserves key insertion
order, so it is an association list from base name to its members. -/
abbrev Groups := List (Name × List Entry)

/-- The in-memory table (`pandas.DataFrame`): named columns, and one list of
cells per row.  A cell of `none` is a missing value. -/
structure Table where
  cols : List Name
  rows : List (List (Option Int))

/-! ### The digit class of Python's `re` pattern `\d` and of `int()`

With a `str` pattern, Python's `\d` matches any Unicode decimal digit
(general category Nd), not only ASCII `0-9`.  Every Nd block is a run of ten
consecutive code points `start..start+9` whose digit values are `0..9`.
`ndRangeStarts` lists the starts of the Nd blocks of the Basic Multilingual
Plane (ASCII first). -/

/-- Starts of the Unicode Nd (decimal digit) blocks in the BMP. -/
def ndRangeStarts : List Nat :=
  [0x0030, 0x0660, 0x06F0, 0x07C0, 0x0966, 0x09E6, 0x0A66, 0x0AE6,
   0x0B66, 0x0BE6, 0x0C66, 0x0CE6, 0x0D66, 0x0DE6, 0x0E50, 0x0ED0,
   0x0F20, 0x1040, 0x1090, 0x17E0, 0x1810, 0x1946, 0x19D0, 0x1A80,
   0x1A90, 0x1B50, 0x1BB0, 0x1C40, 0x1C50, 0xA620, 0xA8D0, 0xA900,
   0xA9D0, 0xA9F0, 0xAA50, 0xABF0, 0xFF10]

/-- The numeric value of a decimal digit character, `none` when the character
is not a decimal digit.  (Models the digit class used by Python's `\d` and by
`int()`.) -/
def digitVal (c : Char) : Option Nat :=
  ndRangeStarts.findSome? fun s =>
    if s ≤ c.toNat ∧ c.toNat ≤ s + 9 then some (c.toNat - s) else none

/-- Whether `c` is a decimal digit (matched by Python's `\d`). -/
def isPyDigit (c : Char) : Bool := (digitVal c).isSome

/-! ### The year matcher: `re.search(r' (\d{4})$', col)`

The pattern is anchored by `$`, which in Python matches at the end of the
string **or just before a newline at the end of the string**.  So a match
exists iff the string (after discarding one final `'\n'`, when present) ends
with one space followed by four decimal digits; the captured group is those
four digits. -/

/-- Looks for `' ' d1 d2 d3 d4` at the head of a *reversed* string and returns
the captured digits `[d1, d2, d3, d4]` in order. -/
def revTailYear : List Char → Option (List Char)
  | d4 :: d3 :: d2 :: d1 :: c :: _ =>
    if c = ' ' ∧ isPyDigit d1 ∧ isPyDigit d2 ∧ isPyDigit d3 ∧ isPyDigit d4 then
      some [d1, d2, d3, d4]
    else none
  | _ => none

/-- `re.search(r' (\d{4})$', col)`: the captured year, or `none` when the
pattern does not match. -/
def searchYear (col : Name) : Option (List Char) :=
  match col.reverse with
  | '\n' :: rest => revTailYear rest
  | r => revTailYear r

/-- `base_name`: `col[:-5]` when the year pattern matches (the source drops the
final five characters), the whole name otherwise. -/
def baseOf (col : Name) : Name :=
  match searchYear col with
  | some _ => col.take (col.length - 5)
  | none => col

/-- The `(year, col)` pair appended for a column: the matched year, or the
empty-string marker `''` for a non-annual column. -/
def entryOf (col : Name) : Entry :=
  match searchYear col with
  | some y => (y, col)
  | none => ([], col)

/-- `column_groups[base].append(entry)`: append to the existing group when the
base name is already a key, otherwise add a new group at the end (insertion
order of a Python dict). -/
def addToGroup (gs : Groups) (b : Name) (e : Entry) : Groups :=
  match gs with
  | [] => [(b, [e])]
  | (b', es) :: rest =>
    if b' = b then (b', es ++ [e]) :: rest else (b', es) :: addToGroup rest b e

/-- The grouping loop of `print_columns_summary` (lines 14-25): build
`column_groups` from the column-name list. -/
def classify_columns (cols : List Name) : Groups :=
  cols.foldl (fun gs c => addToGroup gs (baseOf c) (entryOf c)) []

/-- Lookup of a base name in the groups (the members of `column_groups[b]`;
`[]` when `b` is not a key — the `defaultdict` default). -/
def lookupD (gs : Groups) (b : Name) : List Entry :=
  match gs with
  | [] => []
  | (b', es) :: rest => if b' = b then es else lookupD rest b

/-- All original column names stored in the groups, in group order. -/
def groupNames (gs : Groups) : List Name :=
  gs.flatMap fun g => g.2.map (·.2)

/-! ### `summarize`: the printing loop of `print_columns_summary` (lines 28-50) -/

/-- Lexicographic string order by code point (Python `<=` on `str`), used by
`years.sort()`. -/
def lexLe : List Char → List Char → Bool
  | [], _ => true
  | _ :: _, [] => false
  | a :: as, b :: bs =>
    if a.toNat < b.toNat then true
    else if b.toNat < a.toNat then false
    else lexLe as bs

/-- `years.sort()`: Python's stable sort of a string list is lexicographic by
code point; a stable insertion sort computes the same list. -/
def pyStringSort (ys : List (List Char)) : List (List Char) :=
  List.insertionSort (fun a b => lexLe a b = true) ys

/-- The branch condition of line 32:
`len(columns) > 1 and all(year for year, _ in columns)` (a Python string is
truthy iff non-empty). -/
def isAnnualGroup (es : List Entry) : Bool :=
  decide (1 < es.length) && es.all fun e => !e.1.isEmpty

/-- One printed line: the running `col_num` plus either the annual-series
header (base name with first and last sorted year) or one member's full
original column name. -/
inductive Line where
  | annual (num : Nat) (base : Name) (startY endY : List Char)
  | single (num : Nat) (col : Name)
deriving DecidableEq

/-- The ordinal printed at the head of a line. -/
def Line.num : Line → Nat
  | .annual n _ _ _ => n
  | .single n _ => n

/-- Whether a line is the collapsed annual-series form. -/
def Line.isAnnualLine : Line → Bool
  | .annual _ _ _ _ => true
  | .single _ _ => false

/-- The text of a line (an `f"{col_num}. ..."` string of the source; the two
`print` branches of lines 46-49 are identical, both show the full name). -/
def Line.render : Line → List Char
  | .annual n b y1 y2 =>
    (Nat.toDigits 10 n) ++ (". ".toList) ++ b ++ [' '] ++
      (if y1 = y2 then y1 else y1 ++ ['-'] ++ y2)
  | .single n c => (Nat.toDigits 10 n) ++ (". ".toList) ++ c

/-- The `else` branch of lines 43-50: one line per member, advancing `col_num`
once per line, each line showing the full original column name. -/
def memberLines (n : Nat) : List Entry → List Line
  | [] => []
  | e :: rest => Line.single n e.2 :: memberLines (n + 1) rest

/-- The lines printed for one group starting at ordinal `n` (lines 31-50):
the collapsed annual-series line when the branch condition holds, else one
line per member. -/
def groupLines (n : Nat) (g : Name × List Entry) : List Line :=
  if isAnnualGroup g.2 then
    match pyStringSort (g.2.map (·.1)) with
    | [] => []
    | y :: ys => [Line.annual n g.1 y (List.getLast (y :: ys) (List.cons_ne_nil y ys))]
  else
    memberLines n g.2

/-- Whether a group is displayed as a single collapsed annual-series line. -/
def displayedAsAnnual (n : Nat) (g : Name × List Entry) : Bool :=
  match groupLines n g with
  | [l] => l.isAnnualLine
  | _ => false

/-- The printing loop over all groups, threading `col_num`. -/
def linesFrom (n : Nat) : Groups → List Line
  | [] => []
  | g :: gs =>
    let ls := groupLines n g
    ls ++ linesFrom (n + ls.length) gs

/-- All display lines of `print_columns_summary`, starting at ordinal 1. -/
def summarize (cols : List Name) : List Line :=
  linesFrom 1 (classify_columns cols)

/-! ### `select_series`: the list-comprehension-plus-sort pattern (lines 62-82)

`[col for col in df.columns if LABEL in col and
  col.endswith(tuple([str(year) for year in range(2016, 2071)]))]`
followed by `cols.sort(key=lambda x: int(x.split()[-1]))`. -/

/-- `pat` is a prefix of `s` (character by character). -/
def leadsWith : List Char → List Char → Bool
  | [], _ => true
  | _ :: _, [] => false
  | p :: ps, c :: cs => p = c && leadsWith ps cs

/-- Python `label in col`: `pat` occurs in `s` as a contiguous substring. -/
def containsSub (s pat : Name) : Bool :=
  match s with
  | [] => leadsWith pat []
  | _ :: rest => leadsWith pat s || containsSub rest pat

/-- Python `s.endswith(pat)`. -/
def trailsWith (s pat : Name) : Bool :=
  leadsWith pat.reverse s.reverse

/-- `[str(year) for year in range(2016, 2071)]`. -/
def yearStrings : List (List Char) :=
  (List.range' 2016 55).map fun y => Nat.toDigits 10 y

/-- `col.endswith(tuple([str(year) for year in range(2016, 2071)]))`. -/
def endsInYearRange (col : Name) : Bool :=
  yearStrings.any fun y => trailsWith col y

/-- Whitespace for Python `str.split()` with no argument (the ASCII
whitespace characters). -/
def pyIsSpace (c : Char) : Bool :=
  c = ' ' || c = '\t' || c = '\n' || c = '\x0b' || c = '\x0c' || c = '\r'

/-- `x.split()[-1]`: the last whitespace-delimited token (`[]` when the string
has no token, in which case the source raises `IndexError`). -/
def lastToken (s : Name) : List Char :=
  ((s.reverse.dropWhile pyIsSpace).takeWhile fun c => !pyIsSpace c).reverse

/-- Digit run of a Python `int()` literal after the first digit: decimal
digits with single underscores allowed between digits. -/
def pyDigitsVal (acc : Nat) : List Char → Option Nat
  | [] => some acc
  | '_' :: rest =>
    match rest with
    | [] => none
    | c :: rest' =>
      match digitVal c with
      | some d => pyDigitsVal (acc * 10 + d) rest'
      | none => none
  | c :: rest =>
    match digitVal c with
    | some d => pyDigitsVal (acc * 10 + d) rest
    | none => none

/-- The digits (with optional underscores) of an `int()` literal, which must
start with a digit. -/
def pyNatLit : List Char → Option Nat
  | [] => none
  | c :: rest =>
    match digitVal c with
    | some d => pyDigitsVal d rest
    | none => none

/-- Python `int(s)` on a whitespace-free token: optional sign, then decimal
digits; `none` when `int` raises `ValueError`. -/
def pyInt (s : Name) : Option Int :=
  match s with
  | '-' :: rest => (pyNatLit rest).map fun n => -(n : Int)
  | '+' :: rest => (pyNatLit rest).map fun n => (n : Int)
  | _ => (pyNatLit s).map fun n => (n : Int)

/-- The sort key `int(x.split()[-1])` (defaulted; only used when it parses). -/
def keyD (c : Name) : Int :=
  (pyInt (lastToken c)).getD 0

/-- The selection pattern: filter the columns by label containment and year
suffix, then sort ascending by `int(x.split()[-1])`.  `none` models the
script raising when some selected column's last token is not an integer
literal (Python computes every sort key). -/
def select_series (t : Table) (label : Name) : Option (List Name) :=
  let ms := t.cols.filter fun c => containsSub c label && endsInYearRange c
  if ms.all fun c => (pyInt (lastToken c)).isSome then
    some (List.insertionSort (fun a b => keyD a ≤ keyD b) ms)
  else none

/-! ### `aggregate_by_year`: `df[cols].sum()` (lines 88-97) -/

/-- `df[n]`: the cells of the named column, `none` when the column is absent
(pandas raises `KeyError`).  A short row contributes a missing value. -/
def getColumn (t : Table) (n : Name) : Option (List (Option Int)) :=
  (t.cols.findIdx? (· = n)).map fun i => t.rows.map fun r => (r.get? i).join

/-- A pandas column sum with the default `skipna=True`: missing values are
skipped, and a column with no present value sums to 0. -/
def colSum (cells : List (Option Int)) : Int :=
  (cells.filterMap id).sum

/-- `df[cols].sum()`: one sum per requested column, in order; `none` when a
requested column is absent from the table (pandas raises). -/
def aggregate_by_year (t : Table) (ns : List Name) : Option (List Int) :=
  match ns with
  | [] => some []
  | n :: rest =>
    match getColumn t n, aggregate_by_year t rest with
    | some cells, some vs => some (colSum cells :: vs)
    | _, _ => none

/-! ### Numeric reference sort for claim C8 -/

/-- The numeric value of an ASCII digit string (most significant first). -/
def asciiVal : List Char → Nat
  | [] => 0
  | c :: cs => (c.toNat - 48) * 10 ^ cs.length + asciiVal cs

/-- An ASCII digit `'0'..'9'`. -/
def isAsciiDigit (c : Char) : Bool :=
  decide (48 ≤ c.toNat) && decide (c.toNat ≤ 57)

/-- Modelled from the spec: the numerically-sorting reference of §4 Operation B
("the design must sort numerically"), a stable sort of year strings by their
parsed integer value. -/
def numericSortRef (ys : List (List Char)) : List (List Char) :=
  List.insertionSort (fun a b => asciiVal a ≤ asciiVal b) ys

/-! ## Lemmas about the grouping loop -/

theorem entryOf_snd (c : Name) : (entryOf c).2 = c := by
  unfold entryOf
  cases searchYear c <;> rfl

theorem groupNames_cons (g : Name × List Entry) (gs : Groups) :
    groupNames (g :: gs) = g.2.map (·.2) ++ groupNames gs := by
  simp [groupNames]

theorem groupNames_addToGroup (gs : Groups) (b : Name) (e : Entry) :
    List.Perm (groupNames (addToGroup gs b e)) (groupNames gs ++ [e.2]) := by
  induction gs with
  | nil => simp [addToGroup, groupNames]
  | cons g rest ih =>
    obtain ⟨b', es⟩ := g
    by_cases h : b' = b
    · rw [addToGroup, if_pos h, groupNames_cons, groupNames_cons]
      simp only [List.map_append, List.map_cons, List.map_nil, List.append_assoc]
      exact List.Perm.append_left _ List.perm_append_comm
    · rw [addToGroup, if_neg h, groupNames_cons, groupNames_cons]
      rw [List.append_assoc]
      exact List.Perm.append_left _ ih

theorem groupNames_foldl (cols : List Name) (gs : Groups) :
    List.Perm
      (groupNames (cols.foldl (fun acc c => addToGroup acc (baseOf c) (entryOf c)) gs))
      (groupNames gs ++ cols) := by
  induction cols generalizing gs with
  | nil => simp
  | cons c cs ih =>
    rw [List.foldl_cons]
    refine (ih _).trans ?_
    have h1 : List.Perm
        (groupNames (addToGroup gs (baseOf c) (entryOf c)) ++ cs)
        ((groupNames gs ++ [(entryOf c).2]) ++ cs) :=
      (groupNames_addToGroup gs (baseOf c) (entryOf c)).append_right cs
    refine h1.trans ?_
    rw [entryOf_snd, List.append_assoc]
    rfl

/-- C1: for every list of column names, the original names of all group
members of `classify_columns`, taken together, are a permutation of the input
list: every input column appears in exactly one group under exactly one base
name, none dropped and none duplicated. -/
theorem claim_C1_partition (cols : List Name) :
    List.Perm (groupNames (classify_columns cols)) cols := by
  simpa [groupNames] using groupNames_foldl cols []

theorem lookupD_addToGroup (gs : Groups) (b q : Name) (e : Entry) :
    lookupD (addToGroup gs b e) q = lookupD gs q ++ (if b = q then [e] else []) := by
  induction gs with
  | nil =>
    by_cases h : b = q
    · rw [addToGroup, lookupD, if_pos h, lookupD, if_pos h]
      rfl
    · rw [addToGroup, lookupD, if_neg h, lookupD, if_neg h]
      rfl
  | cons g rest ih =>
    obtain ⟨b0, es⟩ := g
    by_cases h0 : b0 = b
    · rw [addToGroup, if_pos h0]
      by_cases hq : b0 = q
      · have hbq : b = q := h0 ▸ hq
        rw [lookupD, if_pos hq, lookupD, if_pos hq, if_pos hbq]
      · have hbq : ¬ b = q := fun h => hq (h0.trans h)
        rw [lookupD, if_neg hq, lookupD, if_neg hq, if_neg hbq]
        simp
    · rw [addToGroup, if_neg h0]
      by_cases hq : b0 = q
      · have hbq : ¬ b = q := fun h => h0 ((h.trans hq.symm).symm)
        rw [lookupD, if_pos hq, lookupD, if_pos hq, if_neg hbq]
        simp
      · rw [lookupD, if_neg hq, lookupD, if_neg hq, ih]

theorem lookupD_foldl (cols : List Name) (gs : Groups) (q : Name) :
    lookupD (cols.foldl (fun acc c => addToGroup acc (baseOf c) (entryOf c)) gs) q =
      lookupD gs q ++ (cols.filter fun c => decide (baseOf c = q)).map entryOf := by
  induction cols generalizing gs with
  | nil => simp
  | cons c cs ih =>
    rw [List.foldl_cons, ih, lookupD_addToGroup, List.filter_cons]
    by_cases h : baseOf c = q
    · rw [if_pos h]
      simp [h]
    · rw [if_neg h]
      simp [h]

/-- The members grouped under a base name are exactly the entries of the
input columns whose base name is that key, in input order. -/
theorem lookupD_classify (cols : List Name) (q : Name) :
    lookupD (classify_columns cols) q =
      (cols.filter fun c => decide (baseOf c = q)).map entryOf := by
  simpa [lookupD] using lookupD_foldl cols [] q

theorem lookupD_mem (gs : Groups) (b : Name) (h : lookupD gs b ≠ []) :
    (b, lookupD gs b) ∈ gs := by
  induction gs with
  | nil => exact absurd rfl h
  | cons g rest ih =>
    obtain ⟨b0, es⟩ := g
    by_cases h0 : b0 = b
    · rw [lookupD, if_pos h0] at h ⊢
      exact h0 ▸ List.mem_cons_self _ _
    · rw [lookupD, if_neg h0] at h ⊢
      exact List.mem_cons_of_mem _ (ih h)

/-- C5 (as amended): the grouping loop matches one literal space followed by
exactly four decimal digits (Python's `\d`, Unicode category Nd, not only
ASCII) anchored at the end of the string *or just before a trailing newline*
(Python's `$`); on a match the base name is the column name with its final
five characters removed and the year is the four matched digits, otherwise the
entire column name is its own base name with an empty-string year marker
(`searchYear`, `baseOf`, `entryOf`).  The members grouped under each base name
are exactly the entries of the columns with that base name, in input order. -/
theorem claim_C5_matcher (cols : List Name) (q : Name) :
    lookupD (classify_columns cols) q =
      (cols.filter fun c => decide (baseOf c = q)).map entryOf :=
  lookupD_classify cols q

/-- C5 counterexample: the column name `"Gas 2016\n"` does not end in a space
followed by four digits (it ends in a newline), so by the claim it should
become its own base name with an empty-string year marker; but Python's `$`
also matches just before a trailing newline, so the code files it under the
base name `"Gas "` (the name minus its last five characters) with year
`"2016"`. -/
theorem claim_C5_counterexample :
    classify_columns ["Gas 2016\n".toList] =
      [("Gas ".toList, [("2016".toList, "Gas 2016\n".toList)])] ∧
    classify_columns ["Gas 2016\n".toList] ≠
      [("Gas 2016\n".toList, [([], "Gas 2016\n".toList)])] := by
  decide

/-- C10: a column without a year suffix whose full name equals the base name
of other year-suffixed columns is grouped together with them by
`classify_columns` (it does not form a separate group), and `summarize`
displays that group one line per member with the full original names (the
per-member branch), never as a collapsed year range. -/
theorem claim_C10_mixed_group (cols : List Name) (c c' : Name) (n : Nat)
    (hc : c ∈ cols) (hny : searchYear c = none) :
    (c, lookupD (classify_columns cols) c) ∈ classify_columns cols ∧
    (([], c) ∈ lookupD (classify_columns cols) c) ∧
    (c' ∈ cols → baseOf c' = c → entryOf c' ∈ lookupD (classify_columns cols) c) ∧
    groupLines n (c, lookupD (classify_columns cols) c) =
      memberLines n (lookupD (classify_columns cols) c) := by
  have hbase : baseOf c = c := by rw [baseOf, hny]
  have hentry : entryOf c = ([], c) := by rw [entryOf, hny]
  have hchar := lookupD_classify cols c
  have hmemc : ([], c) ∈ lookupD (classify_columns cols) c := by
    rw [hchar]
    refine hentry ▸ List.mem_map_of_mem entryOf ?_
    rw [List.mem_filter]
    exact ⟨hc, by simp [hbase]⟩
  have hne : lookupD (classify_columns cols) c ≠ [] :=
    fun h => by simp [h] at hmemc
  refine ⟨lookupD_mem _ _ hne, hmemc, ?_, ?_⟩
  · intro hc' hb'
    rw [hchar]
    refine List.mem_map_of_mem entryOf ?_
    rw [List.mem_filter]
    exact ⟨hc', by simp [hb']⟩
  · have hfalse : isAnnualGroup (lookupD (classify_columns cols) c) = false := by
      rw [isAnnualGroup]
      cases hall : (lookupD (classify_columns cols) c).all fun e => !e.1.isEmpty
      · simp
      · exfalso
        have := (List.all_eq_true.mp hall) _ hmemc
        simp at this
    rw [groupLines, hfalse]
    simp

/-! ## Lemmas about the printing loop -/

theorem groupLines_annual_branch (n : Nat) (g : Name × List Entry)
    (hA : isAnnualGroup g.2 = true) :
    ∃ y ys, pyStringSort (g.2.map (·.1)) = y :: ys ∧
      groupLines n g =
        [Line.annual n g.1 y (List.getLast (y :: ys) (List.cons_ne_nil y ys))] := by
  have hlen : (pyStringSort (g.2.map (·.1))).length = g.2.length := by
    simp [pyStringSort]
  have hpos : 0 < g.2.length := by
    have hA' := hA
    simp only [isAnnualGroup, Bool.and_eq_true, decide_eq_true_eq] at hA'
    omega
  rcases hs : pyStringSort (g.2.map (·.1)) with _ | ⟨y, ys⟩
  · rw [hs] at hlen
    simp at hlen
    omega
  · refine ⟨y, ys, hs, ?_⟩
    simp only [groupLines, hA, if_true, hs]

theorem groupLines_member_branch (n : Nat) (g : Name × List Entry)
    (hA : isAnnualGroup g.2 = false) : groupLines n g = memberLines n g.2 := by
  simp [groupLines, hA]

theorem memberLines_map_num (ms : List Entry) (n : Nat) :
    (memberLines n ms).map Line.num = List.range' n ms.length := by
  induction ms generalizing n with
  | nil => rfl
  | cons e rest ih =>
    simp [memberLines, ih, List.range'_succ, Line.num]

theorem memberLines_length (ms : List Entry) (n : Nat) :
    (memberLines n ms).length = ms.length := by
  induction ms generalizing n with
  | nil => rfl
  | cons e rest ih => simp [memberLines, ih]

theorem groupLines_map_num (n : Nat) (g : Name × List Entry) :
    (groupLines n g).map Line.num = List.range' n (groupLines n g).length := by
  cases hA : isAnnualGroup g.2
  · rw [groupLines_member_branch n g hA, memberLines_length, memberLines_map_num]
  · obtain ⟨y, ys, _, hg⟩ := groupLines_annual_branch n g hA
    rw [hg]
    rfl

theorem linesFrom_map_num (gs : Groups) (n : Nat) :
    (linesFrom n gs).map Line.num = List.range' n (linesFrom n gs).length := by
  induction gs generalizing n with
  | nil => rfl
  | cons g rest ih =>
    have hunf : linesFrom n (g :: rest) =
        groupLines n g ++ linesFrom (n + (groupLines n g).length) rest := rfl
    rw [hunf, List.map_append, groupLines_map_num, ih, List.length_append,
      List.range'_append_1]
    congr 1
    omega

/-- C3: a group produced by `classify_columns` is displayed by `summarize` as
a single collapsed Annual Series line iff it has more than one member and
every member carries a non-empty parsed year (`isAnnualGroup`, the branch
condition of line 32); a singleton group is displayed as one non-annual line
showing the full original column name. -/
theorem claim_C3_annual_iff (cols : List Name) (b : Name) (ms : List Entry) (n : Nat)
    (h : (b, ms) ∈ classify_columns cols) :
    displayedAsAnnual n (b, ms) = isAnnualGroup ms ∧
    (∀ y c, ms = [(y, c)] → groupLines n (b, ms) = [Line.single n c]) := by
  constructor
  · cases hA : isAnnualGroup ms
    · rw [displayedAsAnnual, groupLines_member_branch n (b, ms) hA]
      cases ms with
      | nil => rfl
      | cons e rest =>
        cases rest with
        | nil => rfl
        | cons e2 r2 => rfl
    · obtain ⟨y, ys, _, hg⟩ := groupLines_annual_branch n (b, ms) hA
      rw [displayedAsAnnual, hg]
      rfl
  · intro y c hms
    subst hms
    have hA : isAnnualGroup [(y, c)] = false := by
      simp [isAnnualGroup]
    rw [groupLines_member_branch n (b, [(y, c)]) hA]
    rfl

/-- C3 witness: in the summary of `["Gas 2020", "Gas 2021", "Oil"]` the group
`"Gas"` (two members, both with years) is displayed as an annual series, and
the singleton group `"Oil"` as one plain line with the full name. -/
theorem claim_C3_annual_iff_witness :
    displayedAsAnnual 1
      ("Gas".toList,
        [("2020".toList, "Gas 2020".toList), ("2021".toList, "Gas 2021".toList)]) = true ∧
    groupLines 2 ("Oil".toList, [([], "Oil".toList)]) = [Line.single 2 ("Oil".toList)] :=
  ⟨((claim_C3_annual_iff ["Gas 2020".toList, "Gas 2021".toList, "Oil".toList]
        ("Gas".toList)
        [("2020".toList, "Gas 2020".toList), ("2021".toList, "Gas 2021".toList)] 1
        (by decide)).1).trans (by decide),
    (claim_C3_annual_iff ["Gas 2020".toList, "Gas 2021".toList, "Oil".toList]
        ("Oil".toList) [([], "Oil".toList)] 2 (by decide)).2
      [] ("Oil".toList) rfl⟩

/-- C10 witness: with columns `["Gas 2020", "Gas 2021", "Gas"]` the
year-less column `"Gas"` lands in the same single group as the two
year-suffixed columns, and that group is printed one line per member. -/
theorem claim_C10_mixed_group_witness :
    ("Gas".toList,
        lookupD (classify_columns ["Gas 2020".toList, "Gas 2021".toList, "Gas".toList])
          ("Gas".toList)) ∈
      classify_columns ["Gas 2020".toList, "Gas 2021".toList, "Gas".toList] ∧
    (([], "Gas".toList) ∈
      lookupD (classify_columns ["Gas 2020".toList, "Gas 2021".toList, "Gas".toList])
        ("Gas".toList)) ∧
    entryOf ("Gas 2021".toList) ∈
      lookupD (classify_columns ["Gas 2020".toList, "Gas 2021".toList, "Gas".toList])
        ("Gas".toList) ∧
    groupLines 1
        ("Gas".toList,
          lookupD (classify_columns ["Gas 2020".toList, "Gas 2021".toList, "Gas".toList])
            ("Gas".toList)) =
      memberLines 1
        (lookupD (classify_columns ["Gas 2020".toList, "Gas 2021".toList, "Gas".toList])
          ("Gas".toList)) := by
  have h := claim_C10_mixed_group
    ["Gas 2020".toList, "Gas 2021".toList, "Gas".toList]
    ("Gas".toList) ("Gas 2021".toList) 1 (by decide) (by decide)
  exact ⟨h.1, h.2.1, h.2.2.1 (by decide) (by decide), h.2.2.2⟩

/-- C6: the ordinal numbers of the display lines emitted by `summarize` are
exactly `1, 2, 3, ...`: they start at 1 and increase by exactly 1 per emitted
line regardless of the branch taken, so the last ordinal equals the total
number of lines emitted. -/
theorem claim_C6_ordinals (cols : List Name) :
    (summarize cols).map Line.num = List.range' 1 (summarize cols).length :=
  linesFrom_map_num (classify_columns cols) 1

/-! ## Claims about `select_series` and `aggregate_by_year` -/

/-- C2 (as amended): when the selection does not raise, it returns exactly the
columns whose name contains the label as a literal substring and whose final
four characters spell one of the strings `"2016"`..`"2070"` (the
`endswith(tuple(...))` test looks only at the last four characters, with no
demand of a space-separated 4-digit year suffix), sorted ascending by the
integer value of the column's last whitespace-delimited token. -/
theorem claim_C2_selection (t : Table) (label : Name) (r : List Name)
    (h : select_series t label = some r) :
    List.Perm r (t.cols.filter fun c => containsSub c label && endsInYearRange c) ∧
    List.Sorted (fun a b => keyD a ≤ keyD b) r := by
  simp only [select_series] at h
  split at h
  · injection h with h'
    subst h'
    refine ⟨List.perm_insertionSort _ _, ?_⟩
    haveI : IsTotal Name fun a b => keyD a ≤ keyD b := ⟨fun a b => Int.le_total _ _⟩
    haveI : IsTrans Name fun a b => keyD a ≤ keyD b := ⟨fun _ _ _ hab hbc => le_trans hab hbc⟩
    exact List.sorted_insertionSort _ _
  · exact absurd h (by simp)

/-- C2 counterexample: the column `"Total natural gas use (GWh) 12070"` has no
trailing 4-digit year suffix at all (`searchYear` fails: the fifth-from-last
character is a digit, not a space) and its trailing numeral parses to 12070,
outside 2016..2070; yet `select_series` returns it, because
`endswith(tuple(...))` only compares the last four characters (`"2070"`). -/
theorem claim_C2_counterexample :
    select_series ⟨["Total natural gas use (GWh) 12070".toList], [[some 1]]⟩
        ("Total natural gas use (GWh)".toList) =
      some ["Total natural gas use (GWh) 12070".toList] ∧
    searchYear ("Total natural gas use (GWh) 12070".toList) = none ∧
    pyInt (lastToken ("Total natural gas use (GWh) 12070".toList)) = some 12070 ∧
    ¬ ((2016 : Int) ≤ 12070 ∧ (12070 : Int) ≤ 2070) := by
  decide

/-- C2 witness: a concrete two-column table where the selection succeeds and
the amended theorem applies. -/
theorem claim_C2_selection_witness :
    List.Perm ["A 2016".toList, "A 2017".toList]
      ((Table.mk ["A 2017".toList, "A 2016".toList] []).cols.filter
        fun c => containsSub c ("A".toList) && endsInYearRange c) ∧
    List.Sorted (fun a b => keyD a ≤ keyD b) ["A 2016".toList, "A 2017".toList] :=
  claim_C2_selection (Table.mk ["A 2017".toList, "A 2016".toList] []) ("A".toList)
    ["A 2016".toList, "A 2017".toList] (by decide)

/-- C4: on the table with columns
`["Baseline in natural gas use (GWh) 2016", "Baseline in natural gas use (GWh) 2017"]`
and rows `[[10, 20], [5, 15]]`, `select_series` for that label returns both
columns in ascending year order and `aggregate_by_year` on them returns
`[15, 35]`. -/
theorem claim_C4_end_to_end :
    select_series
        ⟨["Baseline in natural gas use (GWh) 2016".toList,
          "Baseline in natural gas use (GWh) 2017".toList],
          [[some 10, some 20], [some 5, some 15]]⟩
        ("Baseline in natural gas use (GWh)".toList) =
      some ["Baseline in natural gas use (GWh) 2016".toList,
        "Baseline in natural gas use (GWh) 2017".toList] ∧
    aggregate_by_year
        ⟨["Baseline in natural gas use (GWh) 2016".toList,
          "Baseline in natural gas use (GWh) 2017".toList],
          [[some 10, some 20], [some 5, some 15]]⟩
        ["Baseline in natural gas use (GWh) 2016".toList,
          "Baseline in natural gas use (GWh) 2017".toList] =
      some [15, 35] := by
  decide

/-- C7: when no column passes the label-and-year-suffix filter,
`select_series` returns the empty selection (it does not raise: no sort key is
ever computed), and `aggregate_by_year` of the empty column sequence returns
the empty result, not an error and not a scalar zero. -/
theorem claim_C7_empty_selection (t : Table) (label : Name)
    (h : t.cols.filter (fun c => containsSub c label && endsInYearRange c) = []) :
    select_series t label = some [] ∧ aggregate_by_year t [] = some [] := by
  refine ⟨?_, rfl⟩
  simp only [select_series, h]
  rfl

/-- C7 witness: a table with the single column `"Coal"` matches nothing for
the label `"Gas"`. -/
theorem claim_C7_empty_selection_witness :
    select_series (Table.mk ["Coal".toList] []) ("Gas".toList) = some [] ∧
    aggregate_by_year (Table.mk ["Coal".toList] []) [] = some [] :=
  claim_C7_empty_selection (Table.mk ["Coal".toList] []) ("Gas".toList) (by decide)

/-- C9: aggregating a present, non-empty column whose cells are all missing
yields the sum 0 for that column (the skip-missing sum over no present values
is the numeric default 0), not a missing marker and not an error. -/
theorem claim_C9_all_missing (t : Table) (n : Name) (cells : List (Option Int))
    (hcol : getColumn t n = some cells) (_hne : cells ≠ [])
    (hall : cells.all Option.isNone = true) :
    aggregate_by_year t [n] = some [0] := by
  have hfm : cells.filterMap id = [] := by
    rw [List.filterMap_eq_nil_iff]
    intro a ha
    simpa using List.all_eq_true.mp hall a ha
  have hzero : colSum cells = 0 := by
    rw [colSum, hfm]
    rfl
  simp only [aggregate_by_year, hcol, hzero]

/-- C9 witness: a one-column table whose two cells are both missing sums to
`[0]`. -/
theorem claim_C9_all_missing_witness :
    aggregate_by_year (Table.mk ["A".toList] [[none], [none]]) ["A".toList] =
      some [0] :=
  claim_C9_all_missing (Table.mk ["A".toList] [[none], [none]]) ("A".toList)
    [none, none] (by decide) (by decide) (by decide)

/-! ## Lemmas for claim C8: lexicographic vs numeric year sorting -/

theorem asciiVal_lt_pow (s : List Char) (h : ∀ c ∈ s, isAsciiDigit c = true) :
    asciiVal s < 10 ^ s.length := by
  induction s with
  | nil => simp [asciiVal]
  | cons c cs ih =>
    have hc : c.toNat - 48 ≤ 9 := by
      have := h c (List.mem_cons_self c cs)
      simp only [isAsciiDigit, Bool.and_eq_true, decide_eq_true_eq] at this
      omega
    have hcs := ih fun x hx => h x (List.mem_cons_of_mem c hx)
    have hstep : asciiVal (c :: cs) < (c.toNat - 48 + 1) * 10 ^ cs.length := by
      rw [asciiVal]
      calc (c.toNat - 48) * 10 ^ cs.length + asciiVal cs
          < (c.toNat - 48) * 10 ^ cs.length + 10 ^ cs.length := by omega
        _ = (c.toNat - 48 + 1) * 10 ^ cs.length := by ring
    calc asciiVal (c :: cs) < (c.toNat - 48 + 1) * 10 ^ cs.length := hstep
      _ ≤ 10 * 10 ^ cs.length := Nat.mul_le_mul_right _ (by omega)
      _ = 10 ^ (c :: cs).length := by
          rw [List.length_cons, pow_succ]
          ring

theorem lexLe_iff_asciiVal (s t : List Char) (hlen : s.length = t.length)
    (hs : ∀ c ∈ s, isAsciiDigit c = true) (ht : ∀ c ∈ t, isAsciiDigit c = true) :
    (lexLe s t = true) ↔ asciiVal s ≤ asciiVal t := by
  induction s generalizing t with
  | nil =>
    cases t with
    | nil => simp [lexLe, asciiVal]
    | cons d ds => simp at hlen
  | cons c cs ih =>
    cases t with
    | nil => simp at hlen
    | cons d ds =>
      have hlen' : cs.length = ds.length := by simpa using hlen
      have hc : 48 ≤ c.toNat ∧ c.toNat ≤ 57 := by
        have := hs c (List.mem_cons_self c cs)
        simp only [isAsciiDigit, Bool.and_eq_true, decide_eq_true_eq] at this
        exact this
      have hd : 48 ≤ d.toNat ∧ d.toNat ≤ 57 := by
        have := ht d (List.mem_cons_self d ds)
        simp only [isAsciiDigit, Bool.and_eq_true, decide_eq_true_eq] at this
        exact this
      have hbs := asciiVal_lt_pow cs fun x hx => hs x (List.mem_cons_of_mem c hx)
      have hbd := asciiVal_lt_pow ds fun x hx => ht x (List.mem_cons_of_mem d hx)
      rw [hlen'] at hbs
      rcases Nat.lt_trichotomy c.toNat d.toNat with hlt | heq | hgt
      · have hv : asciiVal (c :: cs) ≤ asciiVal (d :: ds) := by
          rw [asciiVal, asciiVal, hlen']
          calc (c.toNat - 48) * 10 ^ ds.length + asciiVal cs
              ≤ (c.toNat - 48) * 10 ^ ds.length + 10 ^ ds.length := by omega
            _ = (c.toNat - 48 + 1) * 10 ^ ds.length := by ring
            _ ≤ (d.toNat - 48) * 10 ^ ds.length :=
                Nat.mul_le_mul_right _ (by omega)
            _ ≤ (d.toNat - 48) * 10 ^ ds.length + asciiVal ds := Nat.le_add_right _ _
        rw [lexLe, if_pos hlt]
        simp [hv]
      · have hcd : c = d := by
          have h2 : c.val.toNat = d.val.toNat := heq
          exact Char.ext (UInt32.toNat.inj h2)
        subst hcd
        rw [lexLe, if_neg (lt_irrefl _), if_neg (lt_irrefl _)]
        rw [asciiVal, asciiVal, hlen']
        rw [ih ds hlen' (fun x hx => hs x (List.mem_cons_of_mem c hx))
          (fun x hx => ht x (List.mem_cons_of_mem c hx))]
        omega
      · have hv : asciiVal (d :: ds) < asciiVal (c :: cs) := by
          rw [asciiVal, asciiVal, hlen']
          calc (d.toNat - 48) * 10 ^ ds.length + asciiVal ds
              < (d.toNat - 48) * 10 ^ ds.length + 10 ^ ds.length := by omega
            _ = (d.toNat - 48 + 1) * 10 ^ ds.length := by ring
            _ ≤ (c.toNat - 48) * 10 ^ ds.length :=
                Nat.mul_le_mul_right _ (by omega)
            _ ≤ (c.toNat - 48) * 10 ^ ds.length + asciiVal cs := Nat.le_add_right _ _
        rw [lexLe, if_neg (by omega), if_pos hgt]
        simp
        omega

theorem orderedInsert_congr {α : Type} (r s : α → α → Prop)
    [DecidableRel r] [DecidableRel s] (a : α) (l : List α)
    (h : ∀ x ∈ a :: l, ∀ y ∈ a :: l, (r x y ↔ s x y)) :
    List.orderedInsert r a l = List.orderedInsert s a l := by
  induction l with
  | nil => rfl
  | cons b l ih =>
    have hmem : ∀ x ∈ a :: l, ∀ y ∈ a :: l, (r x y ↔ s x y) := by
      intro x hx y hy
      rcases List.mem_cons.mp hx with hx | hx <;>
        rcases List.mem_cons.mp hy with hy | hy
      · exact h x (by simp [hx]) y (by simp [hy])
      · exact h x (by simp [hx]) y (by simp [List.mem_cons_of_mem, hy])
      · exact h x (by simp [List.mem_cons_of_mem, hx]) y (by simp [hy])
      · exact h x (by simp [List.mem_cons_of_mem, hx]) y (by simp [List.mem_cons_of_mem, hy])
    have hab : r a b ↔ s a b :=
      h a (List.mem_cons_self a (b :: l)) b (by simp)
    rw [List.orderedInsert, List.orderedInsert]
    by_cases hr : r a b
    · rw [if_pos hr, if_pos (hab.mp hr)]
    · rw [if_neg hr, if_neg (fun hsab => hr (hab.mpr hsab)), ih hmem]

theorem insertionSort_congr {α : Type} (r s : α → α → Prop)
    [DecidableRel r] [DecidableRel s] (l : List α)
    (h : ∀ x ∈ l, ∀ y ∈ l, (r x y ↔ s x y)) :
    List.insertionSort r l = List.insertionSort s l := by
  induction l with
  | nil => rfl
  | cons a l ih =>
    have htail : ∀ x ∈ l, ∀ y ∈ l, (r x y ↔ s x y) := fun x hx y hy =>
      h x (List.mem_cons_of_mem a hx) y (List.mem_cons_of_mem a hy)
    rw [List.insertionSort, List.insertionSort, ih htail]
    refine orderedInsert_congr r s a (List.insertionSort s l) ?_
    intro x hx y hy
    have hx' : x ∈ a :: l := by
      rcases List.mem_cons.mp hx with hx | hx
      · simp [hx]
      · exact List.mem_cons_of_mem a ((List.mem_insertionSort s).mp hx)
    have hy' : y ∈ a :: l := by
      rcases List.mem_cons.mp hy with hy | hy
      · simp [hy]
      · exact List.mem_cons_of_mem a ((List.mem_insertionSort s).mp hy)
    exact h x hx' y hy'

/-- C8: on year strings that are all exactly four ASCII digits, the
lexicographic string sort used by `summarize` (`years.sort()`) produces the
same sorted list as the numerically-sorting reference, so its first and last
elements — the displayed year range — coincide under either sorting. -/
theorem claim_C8_sort_equivalence (ys : List (List Char))
    (h : ∀ y ∈ ys, y.length = 4 ∧ ∀ c ∈ y, isAsciiDigit c = true) :
    pyStringSort ys = numericSortRef ys ∧
    (pyStringSort ys).head? = (numericSortRef ys).head? ∧
    (pyStringSort ys).getLast? = (numericSortRef ys).getLast? := by
  have heq : pyStringSort ys = numericSortRef ys := by
    rw [pyStringSort, numericSortRef]
    refine insertionSort_congr _ _ ys ?_
    intro x hx y hy
    obtain ⟨hx4, hxd⟩ := h x hx
    obtain ⟨hy4, hyd⟩ := h y hy
    exact lexLe_iff_asciiVal x y (hx4.trans hy4.symm) hxd hyd
  exact ⟨heq, by rw [heq], by rw [heq]⟩

/-- C8 witness: three concrete 4-digit years. -/
theorem claim_C8_sort_equivalence_witness :
    pyStringSort ["2070".toList, "2016".toList, "2023".toList] =
      numericSortRef ["2070".toList, "2016".toList, "2023".toList] ∧
    (pyStringSort ["2070".toList, "2016".toList, "2023".toList]).head? =
      (numericSortRef ["2070".toList, "2016".toList, "2023".toList]).head? ∧
    (pyStringSort ["2070".toList, "2016".toList, "2023".toList]).getLast? =
      (numericSortRef ["2070".toList, "2016".toList, "2023".toList]).getLast? :=
  claim_C8_sort_equivalence ["2070".toList, "2016".toList, "2023".toList]
    (by decide)

end EnergyScenarios
